import Mathlib

/-!
Shallow embedding of the XXH64 implementation in `src/lib.rs` of the
repository (the crate `xxh`): the one-shot hasher `xxh64_slice`, the
streaming hasher `Xxh64` (`with_seed` / `write` / `finish`), the
`BuildHasher` and `Default` impls, and the mixing core
(`round`, `merge_accumulator`, avalanche).

Machine integers: `u64` values are represented as `Nat`, with every
wrapping operation (`wrapping_add`, `wrapping_mul`, `wrapping_sub`,
`rotate_left`) reduced modulo `2 ^ 64`.  Byte slices are `List Nat`
(each element a byte value).  Rust's plain `+` on `u64` — used by the
source at the seed initialisations — wraps in release builds and is
modelled here modulo `2 ^ 64`; a separate checked model
(`with_seed_checked`) captures the overflow-checked (debug-profile)
semantics of those same additions.

Loops (`while slice.len() >= 32` etc.) are modelled by structural
recursion (direct, or on a fuel argument that provably suffices), so
that every definition evaluates inside the kernel.
-/

namespace Xxh

def U64 : Nat := 2 ^ 64

def PRIME64_1 : Nat := 0x9E3779B185EBCA87

def PRIME64_2 : Nat := 0xC2B2AE3D27D4EB4F

def PRIME64_3 : Nat := 0x165667B19E3779F9

def PRIME64_4 : Nat := 0x85EBCA77C2B2AE63

def PRIME64_5 : Nat := 0x27D4EB2F165667C5

/-- `u64::wrapping_add`. -/
def add64 (x y : Nat) : Nat := (x + y) % U64

/-- `u64::wrapping_mul`. -/
def mul64 (x y : Nat) : Nat := (x * y) % U64

/-- `u64::wrapping_sub` (operands below `2 ^ 64`). -/
def sub64 (x y : Nat) : Nat := (x + U64 - y % U64) % U64

/-- `u64::rotate_left`: `(x << n) | (x >> (64 - n))` on 64 bits. -/
def rotl64 (x n : Nat) : Nat := ((x <<< n) % U64) ||| ((x % U64) >>> (64 - n))

/-- `fn round(acc_n, lan_n)` from `src/lib.rs` lines 273-279. -/
def round (acc_n lan_n : Nat) : Nat :=
  mul64 (rotl64 (add64 acc_n (mul64 lan_n PRIME64_2)) 31) PRIME64_1

/-- `fn merge_accumulator(acc, acc_n)` from `src/lib.rs` lines 281-287. -/
def merge_accumulator (acc acc_n : Nat) : Nat :=
  add64 (mul64 (acc ^^^ round 0 acc_n) PRIME64_1) PRIME64_4

/-- Little-endian composition of a byte list (`u64::from_le_bytes` /
`u32::from_le_bytes` on the corresponding reads). -/
def leBytes : List Nat → Nat
  | [] => 0
  | b :: rest => b + 256 * leBytes rest

/-- The 64-bit little-endian word at byte offset `i` of `s`. -/
def word64At (s : List Nat) (i : Nat) : Nat := leBytes ((s.drop i).take 8)

/-- The four lane accumulators `(acc1, acc2, acc3, acc4)`. -/
structure Accs where
  a1 : Nat
  a2 : Nat
  a3 : Nat
  a4 : Nat
deriving DecidableEq

/-- Accumulator initialisation (`src/lib.rs` lines 29-32 and 116-119):
`acc1 = seed + PRIME64_1.wrapping_add(PRIME64_2)`, `acc2 = seed + PRIME64_2`,
`acc3 = seed`, `acc4 = seed.wrapping_sub(PRIME64_1)`.  The first two plain
`+` wrap modulo `2 ^ 64` here (release semantics). -/
def initAccs (seed : Nat) : Accs :=
  { a1 := add64 seed (add64 PRIME64_1 PRIME64_2)
    a2 := add64 seed PRIME64_2
    a3 := seed
    a4 := sub64 seed PRIME64_1 }

/-- One 32-byte stripe folded into the four lanes
(`Xxh64::process_stripe`, and the body of the stripe loop of
`xxh64_slice`): each lane reads its 8-byte little-endian word. -/
def processStripe (a : Accs) (s : List Nat) : Accs :=
  { a1 := round a.a1 (word64At s 0)
    a2 := round a.a2 (word64At s 8)
    a3 := round a.a3 (word64At s 16)
    a4 := round a.a4 (word64At s 24) }

/-- Accumulator convergence (`src/lib.rs` lines 55-63 and 165-174). -/
def converge (a : Accs) : Nat :=
  merge_accumulator
    (merge_accumulator
      (merge_accumulator
        (merge_accumulator
          (add64 (add64 (add64 (rotl64 a.a1 1) (rotl64 a.a2 7)) (rotl64 a.a3 12)) (rotl64 a.a4 18))
          a.a1)
        a.a2)
      a.a3)
    a.a4

/-- Tail loop `while slice.len() >= 8` (`src/lib.rs` lines 68-74 and
183-189): fold one little-endian 64-bit word at a time. -/
def tail8 : Nat → List Nat → Nat × List Nat
  | acc, b0 :: b1 :: b2 :: b3 :: b4 :: b5 :: b6 :: b7 :: rest =>
    tail8
      (add64 (mul64 (rotl64 (acc ^^^ round 0 (leBytes [b0, b1, b2, b3, b4, b5, b6, b7])) 27)
        PRIME64_1) PRIME64_4)
      rest
  | acc, s => (acc, s)

/-- Tail step `if slice.len() >= 4` (`src/lib.rs` lines 75-81 and
190-196): at most one little-endian 32-bit word widened to 64 bits. -/
def tail4 (acc : Nat) (s : List Nat) : Nat × List Nat :=
  if 4 ≤ s.length then
    (add64 (mul64 (rotl64 (acc ^^^ mul64 (leBytes (s.take 4)) PRIME64_1) 23) PRIME64_2) PRIME64_3,
      s.drop 4)
  else (acc, s)

/-- Tail loop `while slice.len() >= 1` (`src/lib.rs` lines 82-87 and
197-202): one byte at a time. -/
def tail1 : Nat → List Nat → Nat
  | acc, [] => acc
  | acc, b :: rest => tail1 (mul64 (rotl64 (acc ^^^ mul64 b PRIME64_5) 11) PRIME64_1) rest

/-- Final mix (`src/lib.rs` lines 89-93 and 204-208). -/
def avalanche (acc : Nat) : Nat :=
  let a1 := mul64 (acc ^^^ (acc >>> 33)) PRIME64_2
  let a2 := mul64 (a1 ^^^ (a1 >>> 29)) PRIME64_3
  a2 ^^^ (a2 >>> 32)

/-- Steps 5 and 6 shared verbatim by `xxh64_slice` (lines 68-94) and
`Xxh64::finish` (lines 183-209): the 8/4/1-byte tail cascade followed by
the avalanche. -/
def tailFinish (acc : Nat) (s : List Nat) : Nat :=
  let p8 := tail8 acc s
  let p4 := tail4 p8.1 p8.2
  avalanche (tail1 p4.1 p4.2)

/-- The stripe loop `while slice.len() >= 32` of `xxh64_slice`
(lines 34-53), written with a fuel argument so that it is structurally
recursive; `stripesLoop` instantiates the fuel with the slice length,
which always suffices. -/
def stripesGo : Nat → Accs → List Nat → Accs × List Nat
  | 0, a, s => (a, s)
  | f + 1, a, s =>
    if 32 ≤ s.length then stripesGo f (processStripe a (s.take 32)) (s.drop 32) else (a, s)

/-- Stripe processing of a whole slice: fold 32-byte stripes while at
least 32 bytes remain, returning the lanes and the remaining tail. -/
def stripesLoop (a : Accs) (s : List Nat) : Accs × List Nat := stripesGo s.length a s

/-- `pub fn xxh64_slice(slice, seed)` from `src/lib.rs` lines 18-95.
The short-input branch starts from `seed + PRIME64_5` (wrapping); the
long branch initialises the lanes, consumes 32-byte stripes and
converges; both then add the input length and run the shared tail. -/
def xxh64_slice (slice : List Nat) (seed : Nat) : Nat :=
  if slice.length < 32 then
    tailFinish (add64 (add64 seed PRIME64_5) slice.length) slice
  else
    tailFinish (add64 (converge (stripesLoop (initAccs seed) slice).1) slice.length)
      (stripesLoop (initAccs seed) slice).2

/-- `pub struct Xxh64` from `src/lib.rs` lines 101-110.  The 32-byte
carry array `buffer: Align64<[u8; 32]>` is modelled by its logical
content: the list of its first `buffer_len` bytes (bytes of the array
beyond `buffer_len` are never read by the source).  The alignment
annotation is a performance hint with no observable semantics. -/
structure Xxh64 where
  seed : Nat
  acc1 : Nat
  acc2 : Nat
  acc3 : Nat
  acc4 : Nat
  buffer : List Nat
  buffer_len : Nat
  input_len : Nat
deriving DecidableEq

/-- `Xxh64::with_seed` from `src/lib.rs` lines 113-124 (the two plain
`+` wrap modulo `2 ^ 64`, release semantics; see `with_seed_checked`
for the overflow-checked profile). -/
def with_seed (seed : Nat) : Xxh64 :=
  { seed := seed
    acc1 := add64 seed (add64 PRIME64_1 PRIME64_2)
    acc2 := add64 seed PRIME64_2
    acc3 := seed
    acc4 := sub64 seed PRIME64_1
    buffer := []
    buffer_len := 0
    input_len := 0 }

/-- The lane quad currently stored in a hasher. -/
def Xxh64.accs (h : Xxh64) : Accs := ⟨h.acc1, h.acc2, h.acc3, h.acc4⟩

/-- The `while new_buffer_len >= 32` loop of `Xxh64::write`
(`src/lib.rs` lines 140-149), with a fuel argument (the initial
`new_buffer_len`, which always suffices) to keep it structurally
recursive.  It consumes 32-byte windows of `bytes` starting at index
`consumed` as long as `nbl ≥ 32`, returning the lanes, the final
`bytes_consumed` and the final `new_buffer_len`. -/
def drainGo : Nat → Accs → List Nat → Nat → Nat → Accs × Nat × Nat
  | 0, a, _, consumed, nbl => (a, consumed, nbl)
  | f + 1, a, bytes, consumed, nbl =>
    if 32 ≤ nbl then
      drainGo f (processStripe a ((bytes.drop consumed).take 32)) bytes (consumed + 32) (nbl - 32)
    else (a, consumed, nbl)

/-- The drain loop of `Xxh64::write` at its entry state. -/
def drainLoop (a : Accs) (bytes : List Nat) (consumed nbl : Nat) : Accs × Nat × Nat :=
  drainGo nbl a bytes consumed nbl

/-- `Xxh64::write` from `src/lib.rs` lines 126-159.  If the chunk fits
below a full stripe it is appended to the carry buffer; otherwise the
buffer is filled to exactly 32 bytes from the front of the chunk, that
stripe is drained, further whole stripes are drained straight from the
chunk, and the remainder becomes the new buffer content. -/
def Xxh64.write (h : Xxh64) (bytes : List Nat) : Xxh64 :=
  if bytes.length + h.buffer_len < 32 then
    { h with
      buffer := h.buffer ++ bytes
      buffer_len := h.buffer_len + bytes.length
      input_len := h.input_len + bytes.length }
  else
    let filled := h.buffer ++ bytes.take (32 - h.buffer_len)
    let r := drainLoop (processStripe h.accs filled) bytes (32 - h.buffer_len)
      (bytes.length + h.buffer_len - 32)
    { seed := h.seed
      acc1 := r.1.a1
      acc2 := r.1.a2
      acc3 := r.1.a3
      acc4 := r.1.a4
      buffer := bytes.drop r.2.1
      buffer_len := r.2.2
      input_len := h.input_len + bytes.length }

/-- `Xxh64::finish` from `src/lib.rs` lines 161-210 (takes `&self`:
a pure projection of the state).  Converges the lanes when at least 32
bytes were ever written, otherwise starts from `seed + PRIME64_5`
(wrapping); then adds the total length and replays the shared tail on
the carry buffer `&self.buffer.0[..self.buffer_len]`. -/
def Xxh64.finish (h : Xxh64) : Nat :=
  if 32 ≤ h.input_len then
    tailFinish (add64 (converge h.accs) h.input_len) (h.buffer.take h.buffer_len)
  else
    tailFinish (add64 (add64 h.seed PRIME64_5) h.input_len) (h.buffer.take h.buffer_len)

/-- `impl BuildHasher for Xxh64`, `build_hasher` (`src/lib.rs` lines
249-256): ignores `self` entirely and returns `Xxh64::with_seed(0)`. -/
def build_hasher (_h : Xxh64) : Xxh64 := with_seed 0

/-- `impl Default for Xxh64` (`src/lib.rs` lines 258-271), written with
the literal field values of the source. -/
def defaultXxh64 : Xxh64 :=
  { seed := 0
    acc1 := add64 PRIME64_1 PRIME64_2
    acc2 := PRIME64_2
    acc3 := 0
    acc4 := sub64 0 PRIME64_1
    buffer := []
    buffer_len := 0
    input_len := 0 }

/-- A sequence of `write` calls, in order. -/
def writeAll (h : Xxh64) (cs : List (List Nat)) : Xxh64 := cs.foldl Xxh64.write h

/-- `x + y` on `u64` under the overflow-checked profile (the default
dev/test profile of the Rust toolchain): `none` models the
"attempt to add with overflow" panic. -/
def checkedAdd64 (x y : Nat) : Option Nat := if x + y < U64 then some (x + y) else none

/-- `Xxh64::with_seed` with its two plain `+` additions given their
overflow-checked (debug-profile) semantics; the neighbouring
`wrapping_add` / `wrapping_sub` calls of the source are total either
way. -/
def with_seed_checked (seed : Nat) : Option Xxh64 := do
  let a1 ← checkedAdd64 seed (add64 PRIME64_1 PRIME64_2)
  let a2 ← checkedAdd64 seed PRIME64_2
  pure { seed := seed, acc1 := a1, acc2 := a2, acc3 := seed, acc4 := sub64 seed PRIME64_1,
         buffer := [], buffer_len := 0, input_len := 0 }

/-- The short-input initialisation `acc = seed + PRIME64_5`
(`src/lib.rs` lines 26 and 178) under the overflow-checked profile. -/
def shortAccChecked (seed : Nat) : Option Nat := checkedAdd64 seed PRIME64_5

/-- Left rotation of a 64-bit value by `n`, stated arithmetically (the
low `64 - n` bits shifted up, the high `n` bits moved down), as the
spec describes `rotate left n bits`. -/
def rotlArith (x n : Nat) : Nat := (x % 2 ^ (64 - n)) * 2 ^ n + x / 2 ^ (64 - n)

/-- The byte string `"0123456789"` of the test corpus. -/
def digitBytes : List Nat := [48, 49, 50, 51, 52, 53, 54, 55, 56, 57]

/-- The states reachable by the streaming hasher, described against the
one-shot pipeline: after `with_seed seed` has absorbed exactly the byte
sequence `b`, the lanes hold the fold of all completed 32-byte stripes
of `b`, the carry buffer holds the unfinished tail of `b`, and the
counters agree with `b`. -/
def Reaches (seed : Nat) (b : List Nat) (h : Xxh64) : Prop :=
  h.seed = seed ∧
  h.input_len = b.length ∧
  h.accs = (stripesLoop (initAccs seed) b).1 ∧
  h.buffer = (stripesLoop (initAccs seed) b).2 ∧
  h.buffer_len = h.buffer.length ∧
  h.buffer_len < 32

/-! ### Loop lemmas -/

theorem stripesGo_of_lt (f : Nat) (a : Accs) (s : List Nat) (h : ¬ 32 ≤ s.length) :
    stripesGo f a s = (a, s) := by
  cases f with
  | zero => rfl
  | succ f => simp [stripesGo, h]

theorem stripesGo_fuel (f : Nat) : ∀ (g : Nat) (a : Accs) (s : List Nat),
    s.length ≤ f → s.length ≤ g → stripesGo f a s = stripesGo g a s := by
  induction f with
  | zero =>
    intro g a s hf _
    rw [stripesGo_of_lt 0 a s (by omega), stripesGo_of_lt g a s (by omega)]
  | succ f ih =>
    intro g a s hf hg
    by_cases h32 : 32 ≤ s.length
    · obtain ⟨g', rfl⟩ : ∃ g', g = g' + 1 := ⟨g - 1, by omega⟩
      simp only [stripesGo, if_pos h32]
      exact ih g' _ _ (by rw [List.length_drop]; omega) (by rw [List.length_drop]; omega)
    · rw [stripesGo_of_lt _ a s h32, stripesGo_of_lt _ a s h32]

/-- Unfolding equation for the stripe loop. -/
theorem stripesLoop_eq (a : Accs) (s : List Nat) :
    stripesLoop a s =
      if 32 ≤ s.length then stripesLoop (processStripe a (s.take 32)) (s.drop 32)
      else (a, s) := by
  by_cases h32 : 32 ≤ s.length
  · rw [if_pos h32]
    unfold stripesLoop
    obtain ⟨f, hf⟩ : ∃ f, s.length = f + 1 := ⟨s.length - 1, by omega⟩
    rw [hf]
    simp only [stripesGo, if_pos h32]
    exact stripesGo_fuel f _ _ _ (by rw [List.length_drop]; omega) (le_refl _)
  · rw [if_neg h32]
    exact stripesGo_of_lt _ _ _ h32

theorem stripesLoop_append_aux (n : Nat) : ∀ (b c : List Nat) (a : Accs), b.length ≤ n →
    stripesLoop a (b ++ c) = stripesLoop (stripesLoop a b).1 ((stripesLoop a b).2 ++ c) := by
  induction n with
  | zero =>
    intro b c a hb
    have hnil : b = [] := List.eq_nil_of_length_eq_zero (by omega)
    subst hnil
    rw [stripesLoop_eq a [], if_neg (by simp)]
  | succ n ih =>
    intro b c a hb
    by_cases h32 : 32 ≤ b.length
    · have h32' : 32 ≤ (b ++ c).length := by rw [List.length_append]; omega
      rw [stripesLoop_eq a (b ++ c), if_pos h32', stripesLoop_eq a b, if_pos h32]
      have htake : (b ++ c).take 32 = b.take 32 := List.take_append_of_le_length h32
      have hdrop : (b ++ c).drop 32 = b.drop 32 ++ c := by
        rw [List.drop_append_eq_append_drop, Nat.sub_eq_zero_of_le h32, List.drop_zero]
      rw [htake, hdrop]
      exact ih (b.drop 32) c _ (by rw [List.length_drop]; omega)
    · rw [stripesLoop_eq a b, if_neg h32]

/-- Processing `b ++ c` stripe-wise factors through processing `b` first:
the loop is insensitive to where the input was split. -/
theorem stripesLoop_append (a : Accs) (b c : List Nat) :
    stripesLoop a (b ++ c) = stripesLoop (stripesLoop a b).1 ((stripesLoop a b).2 ++ c) :=
  stripesLoop_append_aux b.length b c a (le_refl _)

theorem drainGo_of_lt (f : Nat) (a : Accs) (bytes : List Nat) (consumed nbl : Nat)
    (h : ¬ 32 ≤ nbl) : drainGo f a bytes consumed nbl = (a, consumed, nbl) := by
  cases f with
  | zero => rfl
  | succ f => simp [drainGo, h]

theorem drainGo_fuel (f : Nat) : ∀ (g : Nat) (a : Accs) (bytes : List Nat) (consumed nbl : Nat),
    nbl ≤ f → nbl ≤ g → drainGo f a bytes consumed nbl = drainGo g a bytes consumed nbl := by
  induction f with
  | zero =>
    intro g a bytes consumed nbl hf _
    rw [drainGo_of_lt 0 a bytes consumed nbl (by omega), drainGo_of_lt g a bytes consumed nbl (by omega)]
  | succ f ih =>
    intro g a bytes consumed nbl hf hg
    by_cases h32 : 32 ≤ nbl
    · obtain ⟨g', rfl⟩ : ∃ g', g = g' + 1 := ⟨g - 1, by omega⟩
      simp only [drainGo, if_pos h32]
      exact ih g' _ bytes (consumed + 32) (nbl - 32) (by omega) (by omega)
    · rw [drainGo_of_lt _ a bytes consumed nbl h32, drainGo_of_lt _ a bytes consumed nbl h32]

/-- Unfolding equation for the drain loop of `write`. -/
theorem drainLoop_eq (a : Accs) (bytes : List Nat) (consumed nbl : Nat) :
    drainLoop a bytes consumed nbl =
      if 32 ≤ nbl then
        drainLoop (processStripe a ((bytes.drop consumed).take 32)) bytes (consumed + 32)
          (nbl - 32)
      else (a, consumed, nbl) := by
  by_cases h32 : 32 ≤ nbl
  · rw [if_pos h32]
    unfold drainLoop
    obtain ⟨f, hf⟩ : ∃ f, nbl = f + 1 := ⟨nbl - 1, by omega⟩
    subst hf
    simp only [drainGo, if_pos h32]
    exact drainGo_fuel f (f + 1 - 32) _ bytes (consumed + 32) (f + 1 - 32) (by omega) (le_refl _)
  · rw [if_neg h32]
    exact drainGo_of_lt _ _ bytes _ _ h32

/-- The drain loop always stops with a final `new_buffer_len` below 32. -/
theorem drainGo_final_lt (f : Nat) : ∀ (a : Accs) (bytes : List Nat) (consumed nbl : Nat),
    nbl ≤ f → (drainGo f a bytes consumed nbl).2.2 < 32 := by
  induction f with
  | zero =>
    intro a bytes consumed nbl h
    have : nbl = 0 := by omega
    subst this
    exact by norm_num [drainGo]
  | succ f ih =>
    intro a bytes consumed nbl h
    by_cases h32 : 32 ≤ nbl
    · simp only [drainGo, if_pos h32]
      exact ih _ bytes _ _ (by omega)
    · simp only [drainGo, if_neg h32]
      omega

/-- The drain loop of `write`, run from a state where `consumed + nbl`
equals the chunk length, computes exactly the stripe loop on the not yet
consumed part of the chunk; its final `bytes_consumed` and
`new_buffer_len` still add up to the chunk length, and the final
`new_buffer_len` is below 32. -/
theorem drainLoop_spec (nbl : Nat) : ∀ (consumed : Nat) (a : Accs) (bytes : List Nat),
    consumed + nbl = bytes.length →
    stripesLoop a (bytes.drop consumed) =
      ((drainLoop a bytes consumed nbl).1, bytes.drop (drainLoop a bytes consumed nbl).2.1) ∧
    (drainLoop a bytes consumed nbl).2.1 + (drainLoop a bytes consumed nbl).2.2 = bytes.length ∧
    (drainLoop a bytes consumed nbl).2.2 < 32 := by
  induction nbl using Nat.strong_induction_on with
  | _ nbl ih =>
    intro consumed a bytes hinv
    have hdl : (bytes.drop consumed).length = nbl := by rw [List.length_drop]; omega
    by_cases h32 : 32 ≤ nbl
    · rw [drainLoop_eq, if_pos h32, stripesLoop_eq, if_pos (by omega)]
      have hdd : (bytes.drop consumed).drop 32 = bytes.drop (consumed + 32) := by
        rw [List.drop_drop]
      rw [hdd]
      exact ih (nbl - 32) (by omega) (consumed + 32) _ bytes (by omega)
    · rw [drainLoop_eq, if_neg h32, stripesLoop_eq, if_neg (by omega)]
      exact ⟨rfl, by show consumed + nbl = bytes.length; omega, by show nbl < 32; omega⟩

/-! ### Reachability: the streaming state tracks the one-shot pipeline -/

/-- The small branch of `write` (chunk plus buffer below one stripe). -/
theorem write_small {h : Xxh64} {c : List Nat} (hc : c.length + h.buffer_len < 32) :
    h.write c =
      { h with
        buffer := h.buffer ++ c
        buffer_len := h.buffer_len + c.length
        input_len := h.input_len + c.length } := by
  unfold Xxh64.write
  rw [if_pos hc]

/-- The draining branch of `write` (buffer filled to a stripe, then the
drain loop). -/
theorem write_big {h : Xxh64} {c : List Nat} (hc : ¬ c.length + h.buffer_len < 32) :
    h.write c =
      { seed := h.seed
        acc1 := (drainLoop (processStripe h.accs (h.buffer ++ c.take (32 - h.buffer_len))) c
          (32 - h.buffer_len) (c.length + h.buffer_len - 32)).1.a1
        acc2 := (drainLoop (processStripe h.accs (h.buffer ++ c.take (32 - h.buffer_len))) c
          (32 - h.buffer_len) (c.length + h.buffer_len - 32)).1.a2
        acc3 := (drainLoop (processStripe h.accs (h.buffer ++ c.take (32 - h.buffer_len))) c
          (32 - h.buffer_len) (c.length + h.buffer_len - 32)).1.a3
        acc4 := (drainLoop (processStripe h.accs (h.buffer ++ c.take (32 - h.buffer_len))) c
          (32 - h.buffer_len) (c.length + h.buffer_len - 32)).1.a4
        buffer := c.drop (drainLoop (processStripe h.accs (h.buffer ++ c.take (32 - h.buffer_len)))
          c (32 - h.buffer_len) (c.length + h.buffer_len - 32)).2.1
        buffer_len := (drainLoop (processStripe h.accs (h.buffer ++ c.take (32 - h.buffer_len))) c
          (32 - h.buffer_len) (c.length + h.buffer_len - 32)).2.2
        input_len := h.input_len + c.length } := by
  unfold Xxh64.write
  rw [if_neg hc]

theorem reaches_with_seed (seed : Nat) : Reaches seed [] (with_seed seed) := by
  have hempty : stripesLoop (initAccs seed) [] = (initAccs seed, []) := by
    rw [stripesLoop_eq]
    norm_num
  exact ⟨rfl, rfl, by rw [hempty]; rfl, by rw [hempty]; rfl, rfl, by show (0 : Nat) < 32; omega⟩

/-- `write` preserves the reachability invariant: after absorbing the
further chunk `c`, the state describes the byte sequence `b ++ c`. -/
theorem reaches_write {seed : Nat} {b : List Nat} {h : Xxh64} (hr : Reaches seed b h)
    (c : List Nat) : Reaches seed (b ++ c) (h.write c) := by
  obtain ⟨hseed, hlen, haccs, hbuf, hbl, hbl32⟩ := hr
  have happ := stripesLoop_append (initAccs seed) b c
  rw [← haccs, ← hbuf] at happ
  by_cases hsmall : c.length + h.buffer_len < 32
  · rw [write_small hsmall]
    have hlt : ¬ 32 ≤ (h.buffer ++ c).length := by
      rw [List.length_append, ← hbl]; omega
    rw [stripesLoop_eq h.accs (h.buffer ++ c), if_neg hlt] at happ
    refine ⟨hseed, ?_, ?_, ?_, ?_, ?_⟩
    · show h.input_len + c.length = (b ++ c).length
      rw [List.length_append, hlen]
    · show h.accs = (stripesLoop (initAccs seed) (b ++ c)).1
      rw [happ]
    · show h.buffer ++ c = (stripesLoop (initAccs seed) (b ++ c)).2
      rw [happ]
    · show h.buffer_len + c.length = (h.buffer ++ c).length
      rw [List.length_append, hbl]
    · show h.buffer_len + c.length < 32
      omega
  · rw [write_big hsmall]
    have h32' : 32 ≤ (h.buffer ++ c).length := by
      rw [List.length_append, ← hbl]; omega
    rw [stripesLoop_eq h.accs (h.buffer ++ c), if_pos h32'] at happ
    have htake : (h.buffer ++ c).take 32 = h.buffer ++ c.take (32 - h.buffer_len) := by
      rw [List.take_append_eq_append_take, List.take_of_length_le (by omega), hbl]
    have hdrop : (h.buffer ++ c).drop 32 = c.drop (32 - h.buffer_len) := by
      rw [List.drop_append_eq_append_drop, List.drop_eq_nil_of_le (by omega), List.nil_append,
        hbl]
    rw [htake, hdrop] at happ
    obtain ⟨hs1, hs2, hs3⟩ := drainLoop_spec (c.length + h.buffer_len - 32) (32 - h.buffer_len)
      (processStripe h.accs (h.buffer ++ c.take (32 - h.buffer_len))) c (by omega)
    rw [hs1] at happ
    set R := drainLoop (processStripe h.accs (h.buffer ++ c.take (32 - h.buffer_len))) c
      (32 - h.buffer_len) (c.length + h.buffer_len - 32) with hR
    refine ⟨hseed, ?_, ?_, ?_, ?_, ?_⟩
    · show h.input_len + c.length = (b ++ c).length
      rw [List.length_append, hlen]
    · show (⟨R.1.a1, R.1.a2, R.1.a3, R.1.a4⟩ : Accs) = (stripesLoop (initAccs seed) (b ++ c)).1
      rw [happ]
    · show c.drop R.2.1 = (stripesLoop (initAccs seed) (b ++ c)).2
      rw [happ]
    · show R.2.2 = (c.drop R.2.1).length
      rw [List.length_drop]
      omega
    · exact hs3

/-- Any sequence of `write` calls preserves reachability, absorbing the
concatenation of the chunks. -/
theorem reaches_writeAll : ∀ (cs : List (List Nat)) {seed : Nat} {b : List Nat} {h : Xxh64},
    Reaches seed b h → Reaches seed (b ++ cs.flatten) (writeAll h cs) := by
  intro cs
  induction cs with
  | nil =>
    intro seed b h hr
    simpa [writeAll] using hr
  | cons c cs ih =>
    intro seed b h hr
    have h1 := ih (reaches_write hr c)
    rw [List.flatten_cons, ← List.append_assoc]
    simpa [writeAll] using h1

/-- On any reachable state, `finish` computes exactly the one-shot hash
of the bytes absorbed so far. -/
theorem finish_eq {seed : Nat} {b : List Nat} {h : Xxh64} (hr : Reaches seed b h) :
    h.finish = xxh64_slice b seed := by
  obtain ⟨hseed, hlen, haccs, hbuf, hbl, hbl32⟩ := hr
  have htake : h.buffer.take h.buffer_len = h.buffer := by rw [hbl, List.take_length]
  unfold Xxh64.finish xxh64_slice
  rw [hlen, htake, hseed, haccs, hbuf]
  by_cases h32 : 32 ≤ b.length
  · rw [if_pos h32, if_neg (by omega)]
  · rw [if_neg h32, if_pos (by omega)]
    rw [stripesLoop_eq (initAccs seed) b, if_neg (by omega)]

/-! ### Rotation arithmetic -/

/-- For a value below `2 ^ 64`, the masked shift-or rotation of the
source coincides with the arithmetic description of a left rotation. -/
theorem rotl64_arith {x : Nat} (n : Nat) (hx : x < U64) (hn : n ≤ 64) :
    rotl64 x n = rotlArith x n := by
  have hsum : 64 - n + n = 64 := by omega
  have hpow : (2 : Nat) ^ (64 - n) * 2 ^ n = U64 := by
    rw [← pow_add, hsum]; rfl
  unfold rotl64 rotlArith
  rw [Nat.mod_eq_of_lt hx, Nat.shiftLeft_eq, Nat.shiftRight_eq_div_pow]
  have hmod : x * 2 ^ n % U64 = x % 2 ^ (64 - n) * 2 ^ n := by
    rw [← hpow, Nat.mul_mod_mul_right]
  have hlt : x / 2 ^ (64 - n) < 2 ^ n := by
    rw [Nat.div_lt_iff_lt_mul (by positivity)]
    calc x < U64 := hx
    _ = 2 ^ (64 - n) * 2 ^ n := hpow.symm
    _ = 2 ^ n * 2 ^ (64 - n) := by ring
  rw [hmod, mul_comm (x % 2 ^ (64 - n)) (2 ^ n), ← Nat.mul_add_lt_is_or hlt]

/-! ### The claims -/

/-- C1: for every byte sequence, every seed, and every partition of the
bytes into an ordered list of chunks, building the streaming hasher with
`with_seed`, calling `write` once per chunk in order and then `finish`
returns exactly the one-shot `xxh64_slice` of the whole sequence. -/
theorem claim_C1_streaming_refines_oneshot (seed : Nat) (cs : List (List Nat)) :
    (writeAll (with_seed seed) cs).finish = xxh64_slice cs.flatten seed := by
  have h := reaches_writeAll cs (reaches_with_seed seed)
  rw [List.nil_append] at h
  exact finish_eq h

/-- C2: the one-shot hash under seed 0 returns the published values on
the test corpus: the empty input, `"1"`, `"01234"`, `"0123456789"`, and
the 20-, 40- and 80-byte digit-repeat strings. -/
theorem claim_C2_known_vectors :
    xxh64_slice [] 0 = 17241709254077376921 ∧
    xxh64_slice [49] 0 = 13237225503670494420 ∧
    xxh64_slice [48, 49, 50, 51, 52] 0 = 3804218074556952421 ∧
    xxh64_slice digitBytes 0 = 4566581271137380327 ∧
    xxh64_slice (List.flatten (List.replicate 2 digitBytes)) 0 = 3244596498076163532 ∧
    xxh64_slice (List.flatten (List.replicate 4 digitBytes)) 0 = 14587097675127171377 ∧
    xxh64_slice (List.flatten (List.replicate 8 digitBytes)) 0 = 6256723559432292107 := by
  refine ⟨?_, ?_, ?_, ?_, ?_, ?_, ?_⟩ <;> decide

/-- C3: inputs shorter than 32 bytes skip stripe processing entirely and
start the tail from `seed + PRIME64_5` (modulo `2 ^ 64`), in the one-shot
hasher and in `finish` alike; inputs of 32 bytes or more go through lane
initialisation and stripe consumption, and at lengths 32 and 33 the
stripe loop consumes exactly one stripe, leaving exactly the bytes past
offset 32. -/
theorem claim_C3_stripe_threshold (b : List Nat) (s : Nat) (h : Xxh64) :
    (b.length < 32 →
      xxh64_slice b s = tailFinish (add64 (add64 s PRIME64_5) b.length) b) ∧
    (32 ≤ b.length →
      xxh64_slice b s =
        tailFinish (add64 (converge (stripesLoop (initAccs s) b).1) b.length)
          (stripesLoop (initAccs s) b).2) ∧
    (h.input_len < 32 →
      h.finish = tailFinish (add64 (add64 h.seed PRIME64_5) h.input_len)
        (h.buffer.take h.buffer_len)) ∧
    (32 ≤ h.input_len →
      h.finish = tailFinish (add64 (converge h.accs) h.input_len)
        (h.buffer.take h.buffer_len)) ∧
    (b.length = 32 →
      stripesLoop (initAccs s) b = (processStripe (initAccs s) (b.take 32), ([] : List Nat))) ∧
    (b.length = 33 →
      stripesLoop (initAccs s) b = (processStripe (initAccs s) (b.take 32), b.drop 32)) := by
  refine ⟨?_, ?_, ?_, ?_, ?_, ?_⟩
  · intro hlt
    unfold xxh64_slice
    rw [if_pos hlt]
  · intro hge
    unfold xxh64_slice
    rw [if_neg (by omega)]
  · intro hlt
    unfold Xxh64.finish
    rw [if_neg (by omega)]
  · intro hge
    unfold Xxh64.finish
    rw [if_pos hge]
  · intro h32
    rw [stripesLoop_eq, if_pos (by omega)]
    rw [stripesLoop_eq, if_neg (by rw [List.length_drop]; omega)]
    rw [List.drop_eq_nil_of_le (by omega)]
  · intro h33
    rw [stripesLoop_eq, if_pos (by omega)]
    rw [stripesLoop_eq, if_neg (by rw [List.length_drop]; omega)]

theorem claim_C3_stripe_threshold_witness :
    ((List.replicate 33 7 : List Nat).length < 32 → False) ∧
    xxh64_slice (List.replicate 33 7) 5 =
      tailFinish
        (add64 (converge (stripesLoop (initAccs 5) (List.replicate 33 7)).1)
          (List.replicate 33 7 : List Nat).length)
        (stripesLoop (initAccs 5) (List.replicate 33 7)).2 ∧
    xxh64_slice [1, 2, 3] 5 =
      tailFinish (add64 (add64 5 PRIME64_5) ([1, 2, 3] : List Nat).length) [1, 2, 3] ∧
    (with_seed 9).finish =
      tailFinish (add64 (add64 9 PRIME64_5) 0) [] ∧
    (writeAll (with_seed 9) [List.replicate 33 7]).finish =
      tailFinish
        (add64 (converge (writeAll (with_seed 9) [List.replicate 33 7]).accs)
          (writeAll (with_seed 9) [List.replicate 33 7]).input_len)
        ((writeAll (with_seed 9) [List.replicate 33 7]).buffer.take
          (writeAll (with_seed 9) [List.replicate 33 7]).buffer_len) ∧
    stripesLoop (initAccs 5) (List.replicate 33 7) =
      (processStripe (initAccs 5) ((List.replicate 33 7).take 32),
        (List.replicate 33 7).drop 32) ∧
    stripesLoop (initAccs 5) (List.replicate 32 7) =
      (processStripe (initAccs 5) ((List.replicate 32 7).take 32), ([] : List Nat)) := by
  refine ⟨by decide, ?_, ?_, ?_, ?_, ?_, ?_⟩
  · exact (claim_C3_stripe_threshold (List.replicate 33 7) 5 (with_seed 9)).2.1 (by decide)
  · exact (claim_C3_stripe_threshold [1, 2, 3] 5 (with_seed 9)).1 (by decide)
  · exact (claim_C3_stripe_threshold [] 0 (with_seed 9)).2.2.1 (by decide)
  · exact (claim_C3_stripe_threshold [] 0
      (writeAll (with_seed 9) [List.replicate 33 7])).2.2.2.1 (by decide)
  · exact (claim_C3_stripe_threshold (List.replicate 33 7) 5 (with_seed 9)).2.2.2.2.2
      (by decide)
  · exact (claim_C3_stripe_threshold (List.replicate 32 7) 5 (with_seed 9)).2.2.2.2.1
      (by decide)

/-- C4: the claim says the seed initialisations are wraparound additions
that can never fail.  The source writes them with plain `+`
(`seed + PRIME64_5` at lines 26 and 178, `seed + ...` at lines 29-30 and
116-117), which under the overflow-checked profile panics for seeds
whose mathematical sum reaches `2 ^ 64`: the checked model of
`with_seed` and of the short-input initialisation returns `none` at the
maximal 64-bit seed, while for small seeds it agrees with the wrapping
model used elsewhere in this development. -/
theorem claim_C4_seed_add_can_overflow :
    with_seed_checked (2 ^ 64 - 1) = none ∧
    shortAccChecked (2 ^ 64 - 1) = none ∧
    with_seed_checked 10 = some (with_seed 10) ∧
    shortAccChecked 10 = some (add64 10 PRIME64_5) := by
  refine ⟨?_, ?_, ?_, ?_⟩ <;> decide

/-- C5: after any `write` call on a state whose carry buffer holds fewer
than 32 bytes, the carry buffer again holds fewer than 32 bytes, and the
invariant holds in every state reachable from `with_seed` by any
sequence of `write` calls. -/
theorem claim_C5_buffer_len_invariant :
    (∀ (h : Xxh64) (bytes : List Nat), h.buffer_len < 32 → (h.write bytes).buffer_len < 32) ∧
    (∀ (seed : Nat) (cs : List (List Nat)), (writeAll (with_seed seed) cs).buffer_len < 32) := by
  constructor
  · intro h bytes _hlt
    by_cases hsmall : bytes.length + h.buffer_len < 32
    · rw [write_small hsmall]
      show h.buffer_len + bytes.length < 32
      omega
    · rw [write_big hsmall]
      exact drainGo_final_lt (bytes.length + h.buffer_len - 32)
        (processStripe h.accs (h.buffer ++ bytes.take (32 - h.buffer_len))) bytes
        (32 - h.buffer_len) (bytes.length + h.buffer_len - 32) (le_refl _)
  · intro seed cs
    exact (reaches_writeAll cs (reaches_with_seed seed)).2.2.2.2.2

theorem claim_C5_buffer_len_invariant_witness :
    (with_seed 0).buffer_len < 32 ∧
    ((with_seed 0).write (List.replicate 40 1)).buffer_len < 32 ∧
    (writeAll (with_seed 0) [[1], List.replicate 45 2]).buffer_len < 32 :=
  ⟨by decide,
    claim_C5_buffer_len_invariant.1 (with_seed 0) (List.replicate 40 1) (by decide),
    claim_C5_buffer_len_invariant.2 0 [[1], List.replicate 45 2]⟩

/-- C6: `finish` takes the state by shared reference and is modelled as
a pure function of it, so it cannot change any field; consequently an
intermediate `finish` is observable only through its return value, and
writing further chunks after it and finishing again yields exactly the
digest of the whole concatenated sequence, as if the intermediate
`finish` had never been called. -/
theorem claim_C6_finish_is_projection (seed : Nat) (cs1 cs2 : List (List Nat)) :
    (writeAll (with_seed seed) cs1).finish = xxh64_slice cs1.flatten seed ∧
    (writeAll (writeAll (with_seed seed) cs1) cs2).finish =
      xxh64_slice (cs1.flatten ++ cs2.flatten) seed := by
  have h1 := reaches_writeAll cs1 (reaches_with_seed seed)
  rw [List.nil_append] at h1
  exact ⟨finish_eq h1, finish_eq (reaches_writeAll cs2 h1)⟩

/-- C7: `build_hasher` ignores the seed of the `Xxh64` it is called on
and returns `with_seed 0`, so every digest it produces equals the seed-0
digest. -/
theorem claim_C7_build_hasher_ignores_seed (s : Nat) (cs : List (List Nat)) :
    build_hasher (with_seed s) = with_seed 0 ∧
    (writeAll (build_hasher (with_seed s)) cs).finish = xxh64_slice cs.flatten 0 := by
  refine ⟨rfl, ?_⟩
  have h := reaches_writeAll cs (reaches_with_seed 0)
  rw [List.nil_append] at h
  exact finish_eq h

/-- C8: `round acc lane` equals `(acc + lane * PRIME64_2 mod 2 ^ 64)`
rotated left 31 bits and multiplied by `PRIME64_1` modulo `2 ^ 64`, with
the stated prime constants; the same `round` folds each stripe word into
its lane inside `processStripe`, and is applied with first argument 0
inside `merge_accumulator`. -/
theorem claim_C8_round_formula (acc lane : Nat) :
    round acc lane = mul64 (rotlArith (add64 acc (mul64 lane PRIME64_2)) 31) PRIME64_1 ∧
    merge_accumulator acc lane = add64 (mul64 (acc ^^^ round 0 lane) PRIME64_1) PRIME64_4 ∧
    (∀ (a : Accs) (s : List Nat),
      processStripe a s =
        ⟨round a.a1 (word64At s 0), round a.a2 (word64At s 8), round a.a3 (word64At s 16),
          round a.a4 (word64At s 24)⟩) ∧
    PRIME64_1 = 0x9E3779B185EBCA87 ∧
    PRIME64_2 = 0xC2B2AE3D27D4EB4F := by
  refine ⟨?_, rfl, fun a s => rfl, rfl, rfl⟩
  have hx : add64 acc (mul64 lane PRIME64_2) < U64 := by
    unfold add64
    exact Nat.mod_lt _ (by norm_num [U64])
  unfold round
  rw [rotl64_arith 31 hx (by omega)]

/-- C9: the default-constructed hasher equals `with_seed 0` field for
field, so it produces exactly the seed-0 digests. -/
theorem claim_C9_default_is_seed0 (cs : List (List Nat)) :
    defaultXxh64 = with_seed 0 ∧
    (writeAll defaultXxh64 cs).finish = xxh64_slice cs.flatten 0 := by
  have hd : defaultXxh64 = with_seed 0 := by decide
  refine ⟨hd, ?_⟩
  rw [hd]
  have h := reaches_writeAll cs (reaches_with_seed 0)
  rw [List.nil_append] at h
  exact finish_eq h

/-- C10: on any state whose carry buffer is consistent and holds fewer
than 32 bytes, the draining branch of `write` only makes in-bounds
accesses: the chunk holds at least the `32 - buffer_len` bytes used to
fill the buffer, the filled buffer is exactly one stripe, the loop entry
state satisfies `bytes_consumed + new_buffer_len = bytes.length`, every
32-byte window read while `new_buffer_len ≥ 32` lies inside the chunk,
and the final remainder copy has length exactly the final
`new_buffer_len`, which is below 32. -/
theorem claim_C10_write_accesses_in_bounds (h : Xxh64) (bytes : List Nat)
    (hb : h.buffer_len = h.buffer.length) (hlt : h.buffer_len < 32)
    (hbig : ¬ bytes.length + h.buffer_len < 32) :
    32 - h.buffer_len ≤ bytes.length ∧
    (h.buffer ++ bytes.take (32 - h.buffer_len)).length = 32 ∧
    (32 - h.buffer_len) + (bytes.length + h.buffer_len - 32) = bytes.length ∧
    (∀ consumed nbl, consumed + nbl = bytes.length → 32 ≤ nbl →
      ((bytes.drop consumed).take 32).length = 32) ∧
    (bytes.drop (drainLoop (processStripe h.accs (h.buffer ++ bytes.take (32 - h.buffer_len)))
      bytes (32 - h.buffer_len) (bytes.length + h.buffer_len - 32)).2.1).length =
      (drainLoop (processStripe h.accs (h.buffer ++ bytes.take (32 - h.buffer_len))) bytes
        (32 - h.buffer_len) (bytes.length + h.buffer_len - 32)).2.2 ∧
    (drainLoop (processStripe h.accs (h.buffer ++ bytes.take (32 - h.buffer_len))) bytes
      (32 - h.buffer_len) (bytes.length + h.buffer_len - 32)).2.2 < 32 := by
  obtain ⟨hs1, hs2, hs3⟩ := drainLoop_spec (bytes.length + h.buffer_len - 32)
    (32 - h.buffer_len) (processStripe h.accs (h.buffer ++ bytes.take (32 - h.buffer_len)))
    bytes (by omega)
  refine ⟨by omega, ?_, by omega, ?_, ?_, hs3⟩
  · rw [List.length_append, List.length_take, ← hb]
    omega
  · intro consumed nbl hcn h32n
    rw [List.length_take, List.length_drop]
    omega
  · rw [List.length_drop]
    omega

theorem claim_C10_write_accesses_in_bounds_witness :
    32 - (with_seed 0).buffer_len ≤ (List.replicate 40 9 : List Nat).length ∧
    ((with_seed 0).buffer ++ (List.replicate 40 9).take (32 - (with_seed 0).buffer_len)).length
      = 32 ∧
    (drainLoop
      (processStripe (with_seed 0).accs
        ((with_seed 0).buffer ++ (List.replicate 40 9).take (32 - (with_seed 0).buffer_len)))
      (List.replicate 40 9) (32 - (with_seed 0).buffer_len)
      ((List.replicate 40 9 : List Nat).length + (with_seed 0).buffer_len - 32)).2.2 < 32 := by
  obtain ⟨h1, h2, _, _, _, h6⟩ := claim_C10_write_accesses_in_bounds (with_seed 0)
    (List.replicate 40 9) rfl (by decide) (by decide)
  exact ⟨h1, h2, h6⟩

end Xxh
